import Mathlib

/-!
# Verification of the `OPqkdsim` quantum-channel propagation engine

This file gives a shallow embedding, in Lean 4, of `OPqkdsim/channel.py`:
a split-step Fourier method (SSFM) simulator of an optical fiber channel
with attenuation, chromatic dispersion (second and third order) and Kerr
non-linearity.  Floating-point arithmetic is idealised as exact real and
complex arithmetic; `scipy.fft.fft` / `scipy.fft.ifft` are modelled by the
discrete Fourier transform `ZMod.dft` (same sign and normalisation
conventions: the forward transform is unnormalised, the inverse carries
the `1/N` factor).  The external `timeline.publish` collaborator is
modelled by returning the published record.

A second, list-based model (`propagate_signal_list`) tracks array lengths
and NumPy's 1-d broadcasting rules, so that shape-mismatch behaviour can
be settled faithfully: elementwise operations on arrays of unequal length
error out unless one operand has length 1, and `scipy.fft` rejects empty
input, and the trailing `print` of `P_out[-1]` fails on an empty array.
-/

open Complex Finset ZMod
open ComplexConjugate

noncomputable section

namespace OPqkdsim

/-- Python's `int(...)` applied to a float: truncation toward zero. -/
def pyInt (x : ℝ) : ℤ := if 0 ≤ x then ⌊x⌋ else ⌈x⌉

/-- `np.fft.fftfreq n d` at index `v`: frequencies `0, 1, …` up to just below
the Nyquist bin scaled by `1/(d*n)`, then the negative frequencies. -/
def fftfreqVal (N : ℕ) (d : ℝ) (v : ℕ) : ℝ :=
  if v < (N + 1) / 2 then (v : ℝ) / (d * N) else ((v : ℝ) - N) / (d * N)

/-- The state stored by `QuantumChannel.__init__` (the `timeline` collaborator
is external and is modelled at the point of publication instead). -/
structure QuantumChannel where
  fiber_length : ℝ
  attenuation : ℝ
  beta2 : ℝ
  beta3 : ℝ
  dg_delay : ℝ
  gamma : ℝ
  fft_samples : ℕ
  step_size : ℝ

/-- `QuantumChannel.__init__`: unit conversions applied to the supplied
parameters, mirroring `channel.py` lines 38-47. -/
def QuantumChannel.init (fiber_length attenuation beta2 beta3 dg_delay gamma : ℝ)
    (fft_samples : ℕ) (step_size : ℝ) : QuantumChannel where
  fiber_length := fiber_length
  attenuation := (10 : ℝ) ^ (-attenuation / 10)
  beta2 := beta2 * 1e-24
  beta3 := beta3 * 1e-36
  dg_delay := dg_delay * 1e-12
  gamma := gamma
  fft_samples := fft_samples
  step_size := step_size

/-- `self.frequency_grid = np.fft.fftfreq(fft_samples, d=1e-12)`. -/
def frequency_grid (c : QuantumChannel) (k : ZMod c.fft_samples) : ℝ :=
  fftfreqVal c.fft_samples 1e-12 k.val

/-- `self.angular_freq = 2 * np.pi * self.frequency_grid`. -/
def angular_freq (c : QuantumChannel) (k : ZMod c.fft_samples) : ℝ :=
  2 * Real.pi * frequency_grid c k

/-- `QuantumChannel.dispersion_operator`:
`D = exp(-1j*(beta2/2)*w**2*dz - 1j*(beta3/6)*w**3*dz)` over the stored
angular-frequency grid. -/
def dispersion_operator (c : QuantumChannel) (dz : ℝ) (k : ZMod c.fft_samples) : ℂ :=
  Complex.exp (-Complex.I * ((c.beta2 / 2 : ℝ) : ℂ) * ((angular_freq c k : ℝ) : ℂ) ^ 2 * (dz : ℂ)
    - Complex.I * ((c.beta3 / 6 : ℝ) : ℂ) * ((angular_freq c k : ℝ) : ℂ) ^ 3 * (dz : ℂ))

/-- Modelled from the spec (§4.3 contract): the dispersion transfer function
as a pure function of `(β2, β3, ω, dz)` alone, used to state the refinement
claim that `dispersion_operator` reads no other state. -/
def dispersionSpec (beta2 beta3 ω dz : ℝ) : ℂ :=
  Complex.exp (-Complex.I * ((beta2 / 2 : ℝ) : ℂ) * ((ω : ℝ) : ℂ) ^ 2 * (dz : ℂ)
    - Complex.I * ((beta3 / 6 : ℝ) : ℂ) * ((ω : ℝ) : ℂ) ^ 3 * (dz : ℂ))

/-- `QuantumChannel.nonlinear_operator`:
`E * np.exp(1j * self.gamma * np.abs(E) ** 2 * dz)`, per sample. -/
def nonlinear_operator (c : QuantumChannel) (E : ZMod c.fft_samples → ℂ) (dz : ℝ)
    (k : ZMod c.fft_samples) : ℂ :=
  E k * Complex.exp (Complex.I * ((c.gamma : ℝ) : ℂ) * ((Complex.abs (E k) ^ 2 : ℝ) : ℂ) * (dz : ℂ))

/-- One dispersion sub-step of the loop (lines 105-107):
forward FFT, elementwise multiplication by the dispersion operator, inverse FFT. -/
def dispersion_step (c : QuantumChannel) [NeZero c.fft_samples] (dz : ℝ)
    (E : ZMod c.fft_samples → ℂ) : ZMod c.fft_samples → ℂ :=
  ZMod.dft.symm (fun j => ZMod.dft E j * dispersion_operator c dz j)

/-- One iteration of the SSFM loop body (lines 100-113): half non-linear step,
dispersion step, half non-linear step, attenuation factor `attenuation ** dz`. -/
def ssfm_step (c : QuantumChannel) [NeZero c.fft_samples] (dz : ℝ)
    (E : ZMod c.fft_samples → ℂ) : ZMod c.fft_samples → ℂ :=
  fun k =>
    nonlinear_operator c (dispersion_step c dz (nonlinear_operator c E (dz / 2))) (dz / 2) k
      * ((c.attenuation ^ dz : ℝ) : ℂ)

/-- `num_steps = int(self.fiber_length / self.step_size)` (line 94); the
number of executed loop iterations, `range` clamping negatives to zero. -/
def num_steps (c : QuantumChannel) : ℕ :=
  (pyInt (c.fiber_length / c.step_size)).toNat

/-- The complex field after the whole SSFM loop, starting from
`E_complex = Ex + 1j * Ey` (lines 98-113). -/
def output_field (c : QuantumChannel) [NeZero c.fft_samples]
    (Ex Ey : ZMod c.fft_samples → ℝ) : ZMod c.fft_samples → ℂ :=
  (ssfm_step c c.step_size)^[num_steps c] (fun j => (Ex j : ℂ) + Complex.I * (Ey j : ℂ))

/-- The record handed to `self.timeline.publish(self, event_time, P_out,
Ex_out, Ey_out, np.sqrt(Ex_out**2 + Ey_out**2))` (line 122). -/
structure PublishedSignal (N : ℕ) where
  source : QuantumChannel
  event_time : ℝ
  P_out : ZMod N → ℝ
  Ex_out : ZMod N → ℝ
  Ey_out : ZMod N → ℝ
  magnitude : ZMod N → ℝ

/-- `QuantumChannel.propagate_signal` (lines 82-122), modelled as the record
it publishes.  The `t`, `P` and `E` arguments are taken but, as in the
source, never read. -/
def propagate_signal (c : QuantumChannel) [NeZero c.fft_samples] (event_time : ℝ)
    (t P : ZMod c.fft_samples → ℝ) (Ex Ey : ZMod c.fft_samples → ℝ)
    (E : ZMod c.fft_samples → ℂ) : PublishedSignal c.fft_samples where
  source := c
  event_time := event_time
  P_out := fun k => (output_field c Ex Ey k).re ^ 2 + (output_field c Ex Ey k).im ^ 2
  Ex_out := fun k => (output_field c Ex Ey k).re
  Ey_out := fun k => (output_field c Ex Ey k).im
  magnitude := fun k =>
    Real.sqrt ((output_field c Ex Ey k).re ^ 2 + (output_field c Ex Ey k).im ^ 2)

/-! ## List-level model tracking array shapes and NumPy 1-d broadcasting -/

/-- NumPy elementwise combination of two 1-d arrays: equal lengths zip, a
length-1 operand broadcasts, anything else raises a broadcasting error. -/
def broadcastC (op : ℂ → ℂ → ℂ) (a b : List ℂ) : Except String (List ℂ) :=
  if a.length = b.length then .ok (List.zipWith op a b)
  else if a.length = 1 then .ok (b.map (op a.headI))
  else if b.length = 1 then .ok (a.map (fun x => op x b.headI))
  else .error "operands could not be broadcast together"

/-- NumPy elementwise combination of two real 1-d arrays into a complex one
(used for `Ex + 1j * Ey`), with the same broadcasting rules. -/
def broadcastR (op : ℝ → ℝ → ℂ) (a b : List ℝ) : Except String (List ℂ) :=
  if a.length = b.length then .ok (List.zipWith op a b)
  else if a.length = 1 then .ok (b.map (op a.headI))
  else if b.length = 1 then .ok (a.map (fun x => op x b.headI))
  else .error "operands could not be broadcast together"

/-- `scipy.fft.fft` on a 1-d array of arbitrary length `n`:
`X_k = Σ_j x_j · exp(-2πi·j·k/n)`. -/
def dftList (x : List ℂ) : List ℂ :=
  List.ofFn (fun k : Fin x.length =>
    ∑ j : Fin x.length,
      x.get j * Complex.exp (-2 * (Real.pi : ℂ) * Complex.I * (j : ℕ) * (k : ℕ) / x.length))

/-- `scipy.fft.ifft` on a 1-d array of arbitrary length `n`:
`x_j = (1/n) Σ_k X_k · exp(2πi·j·k/n)`. -/
def idftList (X : List ℂ) : List ℂ :=
  List.ofFn (fun j : Fin X.length =>
    (X.length : ℂ)⁻¹ *
      ∑ k : Fin X.length,
        X.get k * Complex.exp (2 * (Real.pi : ℂ) * Complex.I * (j : ℕ) * (k : ℕ) / X.length))

/-- `nonlinear_operator` on a bare array (a same-shape elementwise map). -/
def nonlinear_operator_list (c : QuantumChannel) (E : List ℂ) (dz : ℝ) : List ℂ :=
  E.map (fun z =>
    z * Complex.exp (Complex.I * ((c.gamma : ℝ) : ℂ) * ((Complex.abs z ^ 2 : ℝ) : ℂ) * (dz : ℂ)))

/-- `dispersion_operator` as the length-`fft_samples` array it returns. -/
def dispersion_operator_list (c : QuantumChannel) (dz : ℝ) : List ℂ :=
  List.ofFn (fun k : Fin c.fft_samples =>
    dispersionSpec c.beta2 c.beta3 (2 * Real.pi * fftfreqVal c.fft_samples 1e-12 k.val) dz)

/-- One SSFM loop iteration at array level: `scipy.fft` rejects an empty
array, and the multiplication by the dispersion operator broadcasts. -/
def ssfm_step_list (c : QuantumChannel) (E : List ℂ) : Except String (List ℂ) :=
  let E1 := nonlinear_operator_list c E (c.step_size / 2)
  if E1.length = 0 then .error "invalid number of data points"
  else
    match broadcastC (fun x y => x * y) (dftList E1) (dispersion_operator_list c c.step_size) with
    | .error e => .error e
    | .ok F =>
      if F.length = 0 then .error "invalid number of data points"
      else
        let E2 := nonlinear_operator_list c (idftList F) (c.step_size / 2)
        .ok (E2.map (fun z => z * ((c.attenuation ^ c.step_size : ℝ) : ℂ)))

/-- `for _ in range(num_steps)` over the array-level loop body. -/
def ssfm_loop (c : QuantumChannel) : ℕ → List ℂ → Except String (List ℂ)
  | 0, E => .ok E
  | n + 1, E =>
    match ssfm_step_list c E with
    | .error e => .error e
    | .ok E2 => ssfm_loop c n E2

/-- The published record at array level. -/
structure PublishedSignalList where
  source : QuantumChannel
  event_time : ℝ
  P_out : List ℝ
  Ex_out : List ℝ
  Ey_out : List ℝ
  magnitude : List ℝ

/-- `propagate_signal` at array level: `Ex + 1j * Ey` broadcasts, the loop
runs `num_steps` times, and the `print` of `P_out[-1]` fails on an empty
array.  The `t`, `P` and `E` arguments are taken but never read. -/
def propagate_signal_list (c : QuantumChannel) (event_time : ℝ) (t P : List ℝ)
    (Ex Ey : List ℝ) (E : List ℂ) : Except String PublishedSignalList :=
  match broadcastR (fun x y => (x : ℂ) + Complex.I * (y : ℂ)) Ex Ey with
  | .error e => .error e
  | .ok E0 =>
    match ssfm_loop c (num_steps c) E0 with
    | .error e => .error e
    | .ok Ef =>
      let Ex_out := Ef.map Complex.re
      let Ey_out := Ef.map Complex.im
      let P_out := List.zipWith (fun x y => x ^ 2 + y ^ 2) Ex_out Ey_out
      if P_out.length = 0 then .error "index -1 is out of bounds"
      else
        .ok { source := c
              event_time := event_time
              P_out := P_out
              Ex_out := Ex_out
              Ey_out := Ey_out
              magnitude := List.zipWith (fun x y => Real.sqrt (x ^ 2 + y ^ 2)) Ex_out Ey_out }

/-- The call completed normally (no exception was raised). -/
def returns_ok {α β : Type} : Except α β → Prop
  | .ok _ => True
  | .error _ => False

/-! ## Concrete channels used by the witnesses -/

/-- A small concrete channel: 1 km of fiber, step 1 km, 4 samples, the other
parameters at the constructor's documented defaults. -/
def chW : QuantumChannel := QuantumChannel.init 1 0.2 (-21.27) 0.12 0.1 1.3 4 1

instance : NeZero chW.fft_samples := ⟨by norm_num [chW, QuantumChannel.init]⟩

/-- A channel with zero physical parameters (no attenuation, dispersion or
non-linearity), 4 samples, 1 km fiber, step 1 km. -/
def chZ : QuantumChannel := QuantumChannel.init 1 0 0 0 0.1 0 4 1

instance : NeZero chZ.fft_samples := ⟨by norm_num [chZ, QuantumChannel.init]⟩

/-- A channel with fiber length 0 (so the loop body never runs), 4 samples. -/
def chF : QuantumChannel := QuantumChannel.init 0 0.2 (-21.27) 0.12 0.1 1.3 4 1

/-! ## Discrete Fourier transform facts -/

lemma conj_stdAddChar {N : ℕ} [NeZero N] (x : ZMod N) :
    conj (ZMod.stdAddChar x) = ZMod.stdAddChar (-x) := by
  rw [ZMod.stdAddChar_apply, ZMod.stdAddChar_apply, AddChar.map_neg_eq_inv,
    Circle.coe_inv_eq_conj]

lemma dft_apply_mul {N : ℕ} [NeZero N] (Φ : ZMod N → ℂ) (k : ZMod N) :
    ZMod.dft Φ k = ∑ j, ZMod.stdAddChar (-(j * k)) * Φ j := by
  rw [ZMod.dft_apply]
  exact Finset.sum_congr rfl fun j _ => rfl

lemma conj_dft_apply {N : ℕ} [NeZero N] (Φ : ZMod N → ℂ) (k : ZMod N) :
    conj (ZMod.dft Φ k) = ∑ j, ZMod.stdAddChar (j * k) * conj (Φ j) := by
  rw [dft_apply_mul, map_sum]
  exact Finset.sum_congr rfl fun j _ => by rw [map_mul, conj_stdAddChar, neg_neg]

lemma dft_resolve {N : ℕ} [NeZero N] (Ψ : ZMod N → ℂ) (j : ZMod N) :
    ∑ k, ZMod.stdAddChar (j * k) * ZMod.dft Ψ k = (N : ℂ) * Ψ j := by
  have h := ZMod.invDFT_apply (N := N) (ZMod.dft Ψ) j
  rw [LinearEquiv.symm_apply_apply, smul_eq_mul] at h
  have h2 : ∑ k, ZMod.stdAddChar (j * k) * ZMod.dft Ψ k
      = ∑ k, ZMod.stdAddChar (k * j) • ZMod.dft Ψ k :=
    Finset.sum_congr rfl fun k _ => by rw [smul_eq_mul, mul_comm j k]
  have hN : (N : ℂ) ≠ 0 := Nat.cast_ne_zero.mpr (NeZero.ne N)
  rw [h2, h, ← mul_assoc, mul_inv_cancel₀ hN, one_mul]

lemma dft_inner {N : ℕ} [NeZero N] (Φ Ψ : ZMod N → ℂ) :
    ∑ k, conj (ZMod.dft Φ k) * ZMod.dft Ψ k = (N : ℂ) * ∑ j, conj (Φ j) * Ψ j := by
  have step1 : ∑ k, conj (ZMod.dft Φ k) * ZMod.dft Ψ k
      = ∑ k, ∑ j, ZMod.stdAddChar (j * k) * conj (Φ j) * ZMod.dft Ψ k :=
    Finset.sum_congr rfl fun k _ => by rw [conj_dft_apply, Finset.sum_mul]
  have step2 : ∑ j, ∑ k, ZMod.stdAddChar (j * k) * conj (Φ j) * ZMod.dft Ψ k
      = ∑ j, conj (Φ j) * ∑ k, ZMod.stdAddChar (j * k) * ZMod.dft Ψ k := by
    refine Finset.sum_congr rfl fun j _ => ?_
    rw [Finset.mul_sum]
    exact Finset.sum_congr rfl fun k _ => by ring
  have step3 : ∑ j, conj (Φ j) * ∑ k, ZMod.stdAddChar (j * k) * ZMod.dft Ψ k
      = ∑ j, conj (Φ j) * ((N : ℂ) * Ψ j) :=
    Finset.sum_congr rfl fun j _ => by rw [dft_resolve]
  have step4 : ∑ j, conj (Φ j) * ((N : ℂ) * Ψ j) = (N : ℂ) * ∑ j, conj (Φ j) * Ψ j := by
    rw [Finset.mul_sum]
    exact Finset.sum_congr rfl fun j _ => by ring
  rw [step1, Finset.sum_comm, step2, step3, step4]

lemma dft_parseval {N : ℕ} [NeZero N] (Φ : ZMod N → ℂ) :
    ∑ k, Complex.abs (ZMod.dft Φ k) ^ 2 = (N : ℝ) * ∑ j, Complex.abs (Φ j) ^ 2 := by
  have hp : ∀ z : ℂ, conj z * z = ((Complex.abs z ^ 2 : ℝ) : ℂ) := fun z => by
    rw [mul_comm, Complex.mul_conj, Complex.normSq_eq_abs, Complex.ofReal_pow]
  have h := dft_inner Φ Φ
  simp only [hp] at h
  exact_mod_cast h

lemma unitary_mul_energy {N : ℕ} [NeZero N] (E D : ZMod N → ℂ)
    (hD : ∀ k, Complex.abs (D k) = 1) :
    ∑ k, Complex.abs (ZMod.dft.symm (fun j => ZMod.dft E j * D j) k) ^ 2
      = ∑ k, Complex.abs (E k) ^ 2 := by
  have hF : ZMod.dft (ZMod.dft.symm (fun j => ZMod.dft E j * D j))
      = fun j => ZMod.dft E j * D j :=
    ZMod.dft.apply_symm_apply _
  have h1 := dft_parseval (ZMod.dft.symm (fun j => ZMod.dft E j * D j))
  rw [hF] at h1
  have h2 : ∑ k, Complex.abs (ZMod.dft E k * D k) ^ 2
      = ∑ k, Complex.abs (ZMod.dft E k) ^ 2 :=
    Finset.sum_congr rfl fun k _ => by rw [map_mul, hD, mul_one]
  have h3 := dft_parseval E
  have hN : (N : ℝ) ≠ 0 := Nat.cast_ne_zero.mpr (NeZero.ne N)
  exact mul_left_cancel₀ hN (by rw [← h1, h2, h3])

/-! ## Updating `dg_delay` leaves every computation unchanged -/

lemma nonlinear_update (c : QuantumChannel) (d : ℝ) (E : ZMod c.fft_samples → ℂ) (dz : ℝ) :
    nonlinear_operator { c with dg_delay := d } E dz = nonlinear_operator c E dz := rfl

lemma dispersion_step_update (c : QuantumChannel) [NeZero c.fft_samples] (d dz : ℝ)
    (E : ZMod c.fft_samples → ℂ) :
    dispersion_step { c with dg_delay := d } dz E = dispersion_step c dz E := rfl

lemma ssfm_step_update (c : QuantumChannel) [NeZero c.fft_samples] (d dz : ℝ) :
    ssfm_step { c with dg_delay := d } dz = ssfm_step c dz := by
  funext E k
  have ha : ({ c with dg_delay := d } : QuantumChannel).attenuation = c.attenuation := rfl
  rw [ssfm_step, ssfm_step, nonlinear_update c d E (dz / 2), dispersion_step_update,
    nonlinear_update, ha]

lemma output_field_update (c : QuantumChannel) [NeZero c.fft_samples] (d : ℝ)
    (Ex Ey : ZMod c.fft_samples → ℝ) :
    output_field { c with dg_delay := d } Ex Ey = output_field c Ex Ey := by
  have h1 : ({ c with dg_delay := d } : QuantumChannel).step_size = c.step_size := rfl
  have h2 : num_steps { c with dg_delay := d } = num_steps c := rfl
  rw [output_field, output_field, h1, h2, ssfm_step_update]

/-! ## Claim theorems -/

/-- C2: for every step size `dz`, `dispersion_operator` returns the array whose
`k`-th entry is `exp(-i·(β2/2)·ω_k²·dz - i·(β3/6)·ω_k³·dz)` over the stored
angular-frequency grid, a pure function of `dz`, `ω_k` and the internally
stored (SI-converted) coefficients `β2`, `β3` alone. -/
theorem dispersion_operator_formula (c : QuantumChannel) (dz : ℝ) (k : ZMod c.fft_samples) :
    dispersion_operator c dz k = dispersionSpec c.beta2 c.beta3 (angular_freq c k) dz :=
  rfl

/-- C3: each sample of `nonlinear_operator E dz` equals
`E_k · exp(i·γ·|E_k|²·dz)` (no cross-sample coupling) and has the same
magnitude as `E_k`. -/
theorem nonlinear_operator_pointwise_magnitude (c : QuantumChannel)
    (E : ZMod c.fft_samples → ℂ) (dz : ℝ) (k : ZMod c.fft_samples) :
    nonlinear_operator c E dz k
        = E k * Complex.exp
            (Complex.I * ((c.gamma : ℝ) : ℂ) * ((Complex.abs (E k) ^ 2 : ℝ) : ℂ) * (dz : ℂ))
    ∧ Complex.abs (nonlinear_operator c E dz k) = Complex.abs (E k) := by
  refine ⟨rfl, ?_⟩
  have harg : Complex.I * ((c.gamma : ℝ) : ℂ) * ((Complex.abs (E k) ^ 2 : ℝ) : ℂ) * (dz : ℂ)
      = ((c.gamma * Complex.abs (E k) ^ 2 * dz : ℝ) : ℂ) * Complex.I := by
    push_cast
    ring
  rw [nonlinear_operator, harg, map_mul, Complex.abs_exp_ofReal_mul_I, mul_one]

/-- C4: additivity of the dispersion phase, `D(dz1 + dz2) = D(dz1) · D(dz2)`
elementwise. -/
theorem dispersion_operator_additive (c : QuantumChannel) (dz1 dz2 : ℝ)
    (k : ZMod c.fft_samples) :
    dispersion_operator c (dz1 + dz2) k
      = dispersion_operator c dz1 k * dispersion_operator c dz2 k := by
  simp only [dispersion_operator]
  rw [← Complex.exp_add]
  congr 1
  push_cast
  ring

/-- C6: the constructor stores exactly the fixed unit conversions
(`10^(-α/10)`, `·1e-24`, `·1e-36`, `·1e-12`) and keeps `γ`, `fft_samples`,
`fiber_length` and `step_size` as supplied, for every input tuple (no input
is rejected: the constructor is total). -/
theorem init_conversions (fl a b2 b3 dgd g : ℝ) (N : ℕ) (dz : ℝ) :
    (QuantumChannel.init fl a b2 b3 dgd g N dz).attenuation = (10 : ℝ) ^ (-a / 10)
    ∧ (QuantumChannel.init fl a b2 b3 dgd g N dz).beta2 = b2 * 1e-24
    ∧ (QuantumChannel.init fl a b2 b3 dgd g N dz).beta3 = b3 * 1e-36
    ∧ (QuantumChannel.init fl a b2 b3 dgd g N dz).dg_delay = dgd * 1e-12
    ∧ (QuantumChannel.init fl a b2 b3 dgd g N dz).gamma = g
    ∧ (QuantumChannel.init fl a b2 b3 dgd g N dz).fft_samples = N
    ∧ (QuantumChannel.init fl a b2 b3 dgd g N dz).fiber_length = fl
    ∧ (QuantumChannel.init fl a b2 b3 dgd g N dz).step_size = dz :=
  ⟨rfl, rfl, rfl, rfl, rfl, rfl, rfl, rfl⟩

/-- C9: the stored differential group delay is never read by the propagation
loop: two channels differing only in `dg_delay` publish identical output
arrays on identical inputs. -/
theorem dg_delay_inert (c : QuantumChannel) [NeZero c.fft_samples] (d : ℝ) (τ : ℝ)
    (t P Ex Ey : ZMod c.fft_samples → ℝ) (E : ZMod c.fft_samples → ℂ) :
    (propagate_signal { c with dg_delay := d } τ t P Ex Ey E).P_out
        = (propagate_signal c τ t P Ex Ey E).P_out
    ∧ (propagate_signal { c with dg_delay := d } τ t P Ex Ey E).Ex_out
        = (propagate_signal c τ t P Ex Ey E).Ex_out
    ∧ (propagate_signal { c with dg_delay := d } τ t P Ex Ey E).Ey_out
        = (propagate_signal c τ t P Ex Ey E).Ey_out
    ∧ (propagate_signal { c with dg_delay := d } τ t P Ex Ey E).magnitude
        = (propagate_signal c τ t P Ex Ey E).magnitude := by
  have hP : (propagate_signal { c with dg_delay := d } τ t P Ex Ey E).P_out
      = fun k => (output_field { c with dg_delay := d } Ex Ey k).re ^ 2
          + (output_field { c with dg_delay := d } Ex Ey k).im ^ 2 := rfl
  have hP2 : (propagate_signal c τ t P Ex Ey E).P_out
      = fun k => (output_field c Ex Ey k).re ^ 2 + (output_field c Ex Ey k).im ^ 2 := rfl
  have hX : (propagate_signal { c with dg_delay := d } τ t P Ex Ey E).Ex_out
      = fun k => (output_field { c with dg_delay := d } Ex Ey k).re := rfl
  have hX2 : (propagate_signal c τ t P Ex Ey E).Ex_out
      = fun k => (output_field c Ex Ey k).re := rfl
  have hY : (propagate_signal { c with dg_delay := d } τ t P Ex Ey E).Ey_out
      = fun k => (output_field { c with dg_delay := d } Ex Ey k).im := rfl
  have hY2 : (propagate_signal c τ t P Ex Ey E).Ey_out
      = fun k => (output_field c Ex Ey k).im := rfl
  have hM : (propagate_signal { c with dg_delay := d } τ t P Ex Ey E).magnitude
      = fun k => Real.sqrt ((output_field { c with dg_delay := d } Ex Ey k).re ^ 2
          + (output_field { c with dg_delay := d } Ex Ey k).im ^ 2) := rfl
  have hM2 : (propagate_signal c τ t P Ex Ey E).magnitude
      = fun k => Real.sqrt ((output_field c Ex Ey k).re ^ 2
          + (output_field c Ex Ey k).im ^ 2) := rfl
  rw [hP, hP2, hX, hX2, hY, hY2, hM, hM2, output_field_update]
  exact ⟨rfl, rfl, rfl, rfl⟩

/-- C10: the published record depends only on `Ex`, `Ey` and the stored
parameters — the `t`, `P` and `E` arguments are never read — and
`event_time` is forwarded unchanged. -/
theorem outputs_independent_of_unread_args (c : QuantumChannel) [NeZero c.fft_samples]
    (τ : ℝ) (t t2 P P2 Ex Ey : ZMod c.fft_samples → ℝ) (E E2 : ZMod c.fft_samples → ℂ) :
    propagate_signal c τ t P Ex Ey E = propagate_signal c τ t2 P2 Ex Ey E2
    ∧ (propagate_signal c τ t P Ex Ey E).event_time = τ :=
  ⟨rfl, rfl⟩

/-- C1: the propagation loop runs exactly `⌊fiber_length / step_size⌋` times,
each iteration being: half-step non-linearity, forward transform, elementwise
multiplication by the full-step dispersion operator, inverse transform,
half-step non-linearity, then scaling by `attenuation ^ dz`. -/
theorem propagate_step_count_and_order (c : QuantumChannel) [NeZero c.fft_samples]
    (h : 0 ≤ c.fiber_length / c.step_size) (τ : ℝ)
    (t P Ex Ey : ZMod c.fft_samples → ℝ) (E : ZMod c.fft_samples → ℂ) :
    (num_steps c : ℤ) = ⌊c.fiber_length / c.step_size⌋
    ∧ (propagate_signal c τ t P Ex Ey E).Ex_out
        = (fun k => ((ssfm_step c c.step_size)^[num_steps c]
            (fun j => (Ex j : ℂ) + Complex.I * (Ey j : ℂ)) k).re)
    ∧ (propagate_signal c τ t P Ex Ey E).Ey_out
        = (fun k => ((ssfm_step c c.step_size)^[num_steps c]
            (fun j => (Ex j : ℂ) + Complex.I * (Ey j : ℂ)) k).im)
    ∧ ∀ F : ZMod c.fft_samples → ℂ, ssfm_step c c.step_size F = fun k =>
        nonlinear_operator c
          (ZMod.dft.symm fun j =>
            ZMod.dft (nonlinear_operator c F (c.step_size / 2)) j
              * dispersion_operator c c.step_size j)
          (c.step_size / 2) k
          * ((c.attenuation ^ c.step_size : ℝ) : ℂ) := by
  refine ⟨?_, rfl, rfl, fun F => rfl⟩
  rw [num_steps, pyInt, if_pos h, Int.toNat_of_nonneg (Int.floor_nonneg.mpr h)]

/-- C5: the dispersion transfer function has unit magnitude at every frequency
bin and every real step size, so one full dispersion step (forward transform,
elementwise multiplication, inverse transform) preserves the total energy
`Σ|E_k|²` of any field. -/
theorem dispersion_unit_magnitude_energy (c : QuantumChannel) [NeZero c.fft_samples]
    (dz : ℝ) :
    (∀ k, Complex.abs (dispersion_operator c dz k) = 1)
    ∧ ∀ E : ZMod c.fft_samples → ℂ,
        ∑ k, Complex.abs (dispersion_step c dz E k) ^ 2
          = ∑ k, Complex.abs (E k) ^ 2 := by
  have hD : ∀ k, Complex.abs (dispersion_operator c dz k) = 1 := by
    intro k
    have harg : -Complex.I * ((c.beta2 / 2 : ℝ) : ℂ) * ((angular_freq c k : ℝ) : ℂ) ^ 2 * (dz : ℂ)
          - Complex.I * ((c.beta3 / 6 : ℝ) : ℂ) * ((angular_freq c k : ℝ) : ℂ) ^ 3 * (dz : ℂ)
        = ((-(c.beta2 / 2) * angular_freq c k ^ 2 * dz
            - c.beta3 / 6 * angular_freq c k ^ 3 * dz : ℝ) : ℂ) * Complex.I := by
      push_cast
      ring
    rw [dispersion_operator, harg, Complex.abs_exp_ofReal_mul_I]
  refine ⟨hD, fun E => ?_⟩
  have h := unitary_mul_energy E (dispersion_operator c dz) hD
  simpa only [dispersion_step] using h

lemma propagate_identity_of_null (c : QuantumChannel) [NeZero c.fft_samples]
    (hγ : c.gamma = 0) (hβ2 : c.beta2 = 0) (hβ3 : c.beta3 = 0) (hα : c.attenuation = 1)
    (τ : ℝ) (t P Ex Ey : ZMod c.fft_samples → ℝ) (E : ZMod c.fft_samples → ℂ) :
    (propagate_signal c τ t P Ex Ey E).Ex_out = Ex
    ∧ (propagate_signal c τ t P Ex Ey E).Ey_out = Ey := by
  have hNL : ∀ (F : ZMod c.fft_samples → ℂ) (dz2 : ℝ), nonlinear_operator c F dz2 = F := by
    intro F dz2
    funext k
    rw [nonlinear_operator, hγ]
    simp
  have hD : ∀ (dz2 : ℝ) (k : ZMod c.fft_samples), dispersion_operator c dz2 k = 1 := by
    intro dz2 k
    rw [dispersion_operator, hβ2, hβ3]
    simp
  have hstep : ssfm_step c c.step_size = id := by
    funext F k
    rw [ssfm_step, hNL, hNL, dispersion_step]
    have hmul : (fun j => ZMod.dft F j * dispersion_operator c c.step_size j) = ZMod.dft F := by
      funext j
      rw [hD, mul_one]
    rw [hmul, LinearEquiv.symm_apply_apply, hα, Real.one_rpow, Complex.ofReal_one, mul_one, id]
  have hout : output_field c Ex Ey = fun j => (Ex j : ℂ) + Complex.I * (Ey j : ℂ) := by
    rw [output_field, hstep, Function.iterate_id, id]
  have hX : (propagate_signal c τ t P Ex Ey E).Ex_out
      = fun k => (output_field c Ex Ey k).re := rfl
  have hY : (propagate_signal c τ t P Ex Ey E).Ey_out
      = fun k => (output_field c Ex Ey k).im := rfl
  constructor
  · funext k
    rw [hX, hout]
    simp
  · funext k
    rw [hY, hout]
    simp

/-- C7: with β2 = β3 = γ = 0 and attenuation 0 dB/km, propagation is the
identity on the input field, for every fiber length, step size, sample count
and input — the forward/inverse Fourier round trip is exact. -/
theorem null_parameters_identity (L dz dgd : ℝ) (N : ℕ) (c : QuantumChannel)
    [NeZero c.fft_samples] (hc : c = QuantumChannel.init L 0 0 0 dgd 0 N dz) (τ : ℝ)
    (t P Ex Ey : ZMod c.fft_samples → ℝ) (E : ZMod c.fft_samples → ℂ) :
    (propagate_signal c τ t P Ex Ey E).Ex_out = Ex
    ∧ (propagate_signal c τ t P Ex Ey E).Ey_out = Ey := by
  refine propagate_identity_of_null c ?_ ?_ ?_ ?_ τ t P Ex Ey E
  · rw [hc]
    rfl
  · rw [hc]
    show (0 : ℝ) * 1e-24 = 0
    rw [zero_mul]
  · rw [hc]
    show (0 : ℝ) * 1e-36 = 0
    rw [zero_mul]
  · rw [hc]
    show (10 : ℝ) ^ (-(0 : ℝ) / 10) = 1
    rw [neg_zero, zero_div, Real.rpow_zero]

/-! ## Shape behaviour of the array-level model -/

lemma dftList_length (x : List ℂ) : (dftList x).length = x.length :=
  List.length_ofFn _

lemma nonlinear_list_length (c : QuantumChannel) (E : List ℂ) (dz : ℝ) :
    (nonlinear_operator_list c E dz).length = E.length :=
  List.length_map _ _

lemma dispersion_list_length (c : QuantumChannel) (dz : ℝ) :
    (dispersion_operator_list c dz).length = c.fft_samples :=
  List.length_ofFn _

/-- C8 counterexample: a call whose time, power and field arrays all have
lengths different from the configured sample count (here 1, 2, 2 against 4)
completes and publishes without raising any error, because the fiber
length 0 gives a zero-iteration loop and `t`, `P` are never read. -/
theorem shape_mismatch_no_error_cx :
    returns_ok (propagate_signal_list chF 0 [0] [0, 0] [1, 0] [0, 0] [])
    ∧ [(0 : ℝ)].length ≠ chF.fft_samples
    ∧ [(0 : ℝ), 0].length ≠ chF.fft_samples
    ∧ [(1 : ℝ), 0].length ≠ chF.fft_samples := by
  have hfs : chF.fft_samples = 4 := rfl
  have hn : num_steps chF = 0 := by
    have hq : chF.fiber_length / chF.step_size = 0 := by
      show (0 : ℝ) / 1 = 0
      norm_num
    rw [num_steps, pyInt, hq]
    norm_num
  refine ⟨?_, by rw [hfs]; norm_num, by rw [hfs]; norm_num, by rw [hfs]; norm_num⟩
  have hbc : broadcastR (fun (x y : ℝ) => (x : ℂ) + Complex.I * (y : ℂ)) [1, 0] [0, 0]
      = .ok (List.zipWith (fun (x y : ℝ) => (x : ℂ) + Complex.I * (y : ℂ)) [1, 0] [0, 0]) := by
    rw [broadcastR, if_pos (show ([(1 : ℝ), 0]).length = ([(0 : ℝ), 0]).length from rfl)]
  rw [propagate_signal_list, hbc, hn]
  simp [ssfm_loop, returns_ok, List.zipWith]

/-- C8 amended: the entry point performs no explicit shape validation.  The
`t` and `P` arguments are never read, so their lengths are never checked;
field arrays whose common length differs from the sample count (both lengths
exceeding 1) fail only inside the loop, via the elementwise-multiplication
broadcast, whenever at least one step runs. -/
theorem field_broadcast_mismatch_error (c : QuantumChannel) (τ : ℝ)
    (t P t2 P2 : List ℝ) (Ex Ey : List ℝ) (E E2 : List ℂ)
    (hlen : Ex.length = Ey.length) (h0 : Ex.length ≠ 0) (h1 : Ex.length ≠ 1)
    (hN : Ex.length ≠ c.fft_samples) (hN1 : c.fft_samples ≠ 1) (hs : 1 ≤ num_steps c) :
    propagate_signal_list c τ t P Ex Ey E
        = Except.error "operands could not be broadcast together"
    ∧ propagate_signal_list c τ t P Ex Ey E = propagate_signal_list c τ t2 P2 Ex Ey E2 := by
  refine ⟨?_, rfl⟩
  obtain ⟨n, hn⟩ : ∃ n, num_steps c = n + 1 :=
    ⟨num_steps c - 1, (Nat.succ_pred_eq_of_pos hs).symm⟩
  have hbc : broadcastR (fun (x y : ℝ) => (x : ℂ) + Complex.I * (y : ℂ)) Ex Ey
      = .ok (List.zipWith (fun (x y : ℝ) => (x : ℂ) + Complex.I * (y : ℂ)) Ex Ey) := by
    rw [broadcastR, if_pos hlen]
  have hlen0 : (List.zipWith (fun (x y : ℝ) => (x : ℂ) + Complex.I * (y : ℂ)) Ex Ey).length
      = Ex.length := by
    rw [List.length_zipWith, ← hlen, min_self]
  have hstep : ssfm_step_list c
      (List.zipWith (fun (x y : ℝ) => (x : ℂ) + Complex.I * (y : ℂ)) Ex Ey)
      = .error "operands could not be broadcast together" := by
    have hE1 : (nonlinear_operator_list c
        (List.zipWith (fun (x y : ℝ) => (x : ℂ) + Complex.I * (y : ℂ)) Ex Ey)
        (c.step_size / 2)).length = Ex.length := by
      rw [nonlinear_list_length, hlen0]
    have hmul : broadcastC (fun x y => x * y)
        (dftList (nonlinear_operator_list c
          (List.zipWith (fun (x y : ℝ) => (x : ℂ) + Complex.I * (y : ℂ)) Ex Ey)
          (c.step_size / 2)))
        (dispersion_operator_list c c.step_size)
        = .error "operands could not be broadcast together" := by
      rw [broadcastC, dftList_length, hE1, dispersion_list_length,
        if_neg hN, if_neg h1, if_neg hN1]
    rw [ssfm_step_list]
    rw [if_neg (by rw [hE1]; exact h0)]
    rw [hmul]
  rw [propagate_signal_list, hbc, hn]
  simp only [ssfm_loop, hstep]

/-! ## Witnesses instantiating the hypotheses of the claim theorems -/

theorem propagate_step_count_and_order_witness :
    0 ≤ chW.fiber_length / chW.step_size
    ∧ (num_steps chW : ℤ) = ⌊chW.fiber_length / chW.step_size⌋ := by
  have hge : 0 ≤ chW.fiber_length / chW.step_size := by
    show (0 : ℝ) ≤ 1 / 1
    norm_num
  exact ⟨hge, (propagate_step_count_and_order chW hge 0 (fun _ => 0) (fun _ => 0)
    (fun _ => 1) (fun _ => 0) (fun _ => 0)).1⟩

theorem dispersion_unit_magnitude_energy_witness :
    Complex.abs (dispersion_operator chW 1 0) = 1 :=
  (dispersion_unit_magnitude_energy chW 1).1 0

theorem null_parameters_identity_witness :
    chZ = QuantumChannel.init 1 0 0 0 0.1 0 4 1
    ∧ (propagate_signal chZ 0 (fun _ => 0) (fun _ => 0) (fun _ => 1) (fun _ => 2)
        (fun _ => 0)).Ex_out = fun _ => 1 :=
  ⟨rfl, (null_parameters_identity 1 1 0.1 4 chZ rfl 0 _ _ _ _ _).1⟩

theorem field_broadcast_mismatch_error_witness :
    (([(1 : ℝ), 0]).length = ([(0 : ℝ), 0]).length
      ∧ ([(1 : ℝ), 0]).length ≠ 0
      ∧ ([(1 : ℝ), 0]).length ≠ 1
      ∧ ([(1 : ℝ), 0]).length ≠ chW.fft_samples
      ∧ chW.fft_samples ≠ 1
      ∧ 1 ≤ num_steps chW)
    ∧ propagate_signal_list chW 0 [0] [0] [1, 0] [0, 0] []
        = Except.error "operands could not be broadcast together" := by
  have hfs : chW.fft_samples = 4 := rfl
  have hs : 1 ≤ num_steps chW := by
    have hq : chW.fiber_length / chW.step_size = 1 := by
      show (1 : ℝ) / 1 = 1
      norm_num
    rw [num_steps, pyInt, hq, if_pos (by norm_num : (0 : ℝ) ≤ 1)]
    norm_num
  refine ⟨⟨rfl, by norm_num, by norm_num, by rw [hfs]; norm_num,
    by rw [hfs]; norm_num, hs⟩, ?_⟩
  exact (field_broadcast_mismatch_error chW 0 [0] [0] [2] [3] [1, 0] [0, 0] [] []
    rfl (by norm_num) (by norm_num) (by rw [hfs]; norm_num) (by rw [hfs]; norm_num) hs).1

theorem dg_delay_inert_witness :
    (propagate_signal { chW with dg_delay := 0.3 } 0 (fun _ => 0) (fun _ => 0)
        (fun _ => 1) (fun _ => 0) (fun _ => 0)).P_out
      = (propagate_signal chW 0 (fun _ => 0) (fun _ => 0) (fun _ => 1) (fun _ => 0)
        (fun _ => 0)).P_out :=
  (dg_delay_inert chW 0.3 0 _ _ _ _ _).1

theorem outputs_independent_of_unread_args_witness :
    propagate_signal chW 0 (fun _ => 0) (fun _ => 0) (fun _ => 1) (fun _ => 0) (fun _ => 0)
        = propagate_signal chW 0 (fun _ => 2) (fun _ => 3) (fun _ => 1) (fun _ => 0) (fun _ => 4)
    ∧ (propagate_signal chW 0 (fun _ => 0) (fun _ => 0) (fun _ => 1) (fun _ => 0)
        (fun _ => 0)).event_time = 0 :=
  outputs_independent_of_unread_args chW 0 _ _ _ _ _ _ _ _

end OPqkdsim

end
